import Mathlib

/-
Shallow embedding of the attendance tracker session-schedule and auto-logout
subsystem (src/database.js and src/server.js of IronRiders/attendance-tracker).

Modelling conventions:
* Times of day are minutes since midnight (Nat).  The source stores zero-padded
  "HH:MM" strings and compares them as SQLite TEXT; on well-formed zero-padded
  times lexicographic string comparison coincides with numeric comparison of
  minutes, so the Nat model is faithful.
* SQL result rows are lists of structures; `SELECT ... LIMIT 1` with an
  ORDER BY is modelled by `selectMinBy`, which returns the first row that is
  minimal for the given ordering; `db.get` without ORDER BY is `List.find?`
  (first row in table scan order).
* Timestamps (scan_time) are Nat; record ids are Nat, assigned by the caller
  in increasing order as SQLite AUTOINCREMENT does.
-/

/-- Row of the meeting_schedules table (src/database.js init).  The id column
is omitted: no modelled operation reads it.  start_time and end_time are
minutes since midnight. -/
structure MeetingSchedule where
  day_of_week : Nat
  session_number : Nat
  start_time : Nat
  end_time : Nat
  session_name : String
  is_active : Bool
deriving Repr, DecidableEq

/-- Row of the members table (only the columns the engine reads). -/
structure Member where
  id : Nat
  name : String
deriving Repr, DecidableEq

/-- Row of the attendance_records table. -/
structure AttendanceRecord where
  id : Nat
  member_id : Nat
  scan_time : Nat
  is_checkin : Bool
  is_auto_logout : Bool
  needs_review : Bool
deriving Repr, DecidableEq

/-- Model of `SELECT ... ORDER BY key LIMIT 1`: the first element of the list
that is minimal for the boolean relation le. -/
def selectMinBy {α : Type} (le : α → α → Bool) : List α → Option α
  | [] => none
  | a :: l => some ((selectMinBy le l).elim a fun b => if le a b then a else b)

theorem selectMinBy_eq_none {α : Type} (le : α → α → Bool) (l : List α) :
    selectMinBy le l = none ↔ l = [] := by
  cases l with
  | nil => simp [selectMinBy]
  | cons a l => simp [selectMinBy]

theorem selectMinBy_mem {α : Type} (le : α → α → Bool) (l : List α) (a : α)
    (h : selectMinBy le l = some a) : a ∈ l := by
  induction l generalizing a with
  | nil => simp [selectMinBy] at h
  | cons b l ih =>
    simp only [selectMinBy, Option.some.injEq] at h
    cases hsel : selectMinBy le l with
    | none =>
      rw [hsel] at h
      simp only [Option.elim_none] at h
      rw [← h]
      exact List.mem_cons_self b l
    | some c =>
      rw [hsel] at h
      simp only [Option.elim_some] at h
      by_cases hle : le b c = true
      · rw [if_pos hle] at h
        rw [← h]
        exact List.mem_cons_self b l
      · rw [if_neg hle] at h
        rw [← h]
        exact List.mem_cons_of_mem b (ih c hsel)

theorem selectMinBy_min {α : Type} (le : α → α → Bool)
    (htot : ∀ a b : α, le a b = true ∨ le b a = true)
    (htrans : ∀ a b c : α, le a b = true → le b c = true → le a c = true)
    (l : List α) (a : α) (h : selectMinBy le l = some a) :
    ∀ b ∈ l, le a b = true := by
  induction l generalizing a with
  | nil => simp [selectMinBy] at h
  | cons c l ih =>
    simp only [selectMinBy, Option.some.injEq] at h
    cases hsel : selectMinBy le l with
    | none =>
      rw [hsel] at h
      simp only [Option.elim_none] at h
      have hl : l = [] := (selectMinBy_eq_none le l).mp hsel
      subst hl
      intro b hb
      rw [List.mem_singleton] at hb
      rw [hb, ← h]
      rcases htot c c with h1 | h1 <;> exact h1
    | some d =>
      rw [hsel] at h
      simp only [Option.elim_some] at h
      by_cases hle : le c d = true
      · rw [if_pos hle] at h
        intro b hb
        rcases List.mem_cons.mp hb with hbc | hbl
        · rw [hbc, ← h]
          rcases htot c c with h1 | h1 <;> exact h1
        · rw [← h]
          exact htrans _ _ _ hle (ih d hsel b hbl)
      · rw [if_neg hle] at h
        intro b hb
        rcases List.mem_cons.mp hb with hbc | hbl
        · rw [hbc, ← h]
          rcases htot c d with h1 | h1
          · exact absurd h1 hle
          · exact h1
        · rw [← h]
          exact ih d hsel b hbl

/-- `Database.isWithinMeetingSchedule` (src/database.js:460): first row of
meeting_schedules with the requested weekday, is_active, and
start_time ≤ currentTime ≤ end_time (db.get without ORDER BY: scan order). -/
def isWithinMeetingSchedule (table : List MeetingSchedule)
    (dayOfWeek currentTime : Nat) : Option MeetingSchedule :=
  table.find? fun s =>
    s.day_of_week == dayOfWeek && s.is_active &&
      decide (s.start_time ≤ currentTime) && decide (currentTime ≤ s.end_time)

/-- Candidates of the first query of `Database.getNextMeetingSession`
(src/database.js:481): active sessions today that have not started yet. -/
def todayUpcoming (table : List MeetingSchedule) (dayOfWeek currentTime : Nat) :
    List MeetingSchedule :=
  table.filter fun s =>
    s.day_of_week == dayOfWeek && s.is_active && decide (currentTime < s.start_time)

/-- Candidates of the second query of `Database.getNextMeetingSession`
(src/database.js:495): active sessions whose weekday is strictly after or
strictly before today — sessions on today s own weekday are excluded. -/
def laterInWeek (table : List MeetingSchedule) (dayOfWeek : Nat) :
    List MeetingSchedule :=
  table.filter fun s =>
    ((decide (dayOfWeek < s.day_of_week) && decide (s.day_of_week ≤ 6)) ||
      (decide (0 ≤ s.day_of_week) && decide (s.day_of_week < dayOfWeek))) &&
      s.is_active

/-- The CASE expression of the second query: day_of_week, shifted by a week
when it does not lie strictly after today. -/
def wrapDay (dayOfWeek : Nat) (s : MeetingSchedule) : Nat :=
  if dayOfWeek < s.day_of_week then s.day_of_week else s.day_of_week + 7

/-- ORDER BY (wrapped day, session_number) of the second query. -/
def nextOrder (dayOfWeek : Nat) (a b : MeetingSchedule) : Bool :=
  decide (wrapDay dayOfWeek a < wrapDay dayOfWeek b) ||
    (decide (wrapDay dayOfWeek a = wrapDay dayOfWeek b) &&
      decide (a.session_number ≤ b.session_number))

/-- `Database.getNextMeetingSession` (src/database.js:475): a session later
today with the least start_time, else the first session of `laterInWeek` in
(wrapped day, session_number) order. -/
def getNextMeetingSession (table : List MeetingSchedule)
    (dayOfWeek currentTime : Nat) : Option MeetingSchedule :=
  (selectMinBy (fun a b => decide (a.start_time ≤ b.start_time))
      (todayUpcoming table dayOfWeek currentTime)).elim
    (selectMinBy (nextOrder dayOfWeek) (laterInWeek table dayOfWeek)) some

/-- C4: isWithinSession returns a session exactly when some active session of
the current weekday satisfies start_time ≤ now ≤ end_time, both bounds
inclusive; in particular it returns a session at a time exactly equal to a
start_time or an end_time of such a session, and on the one-session example
table of the spec it returns none one minute after the end_time. -/
theorem isWithinMeetingSchedule_spec (table : List MeetingSchedule) (d t : Nat) :
    ((isWithinMeetingSchedule table d t).isSome ↔
      ∃ s ∈ table, s.is_active = true ∧ s.day_of_week = d ∧
        s.start_time ≤ t ∧ t ≤ s.end_time) ∧
    (∀ s ∈ table, s.is_active = true → s.day_of_week = d →
      s.start_time ≤ s.end_time →
      (isWithinMeetingSchedule table d s.start_time).isSome ∧
      (isWithinMeetingSchedule table d s.end_time).isSome) ∧
    isWithinMeetingSchedule
      [{ day_of_week := 1, session_number := 1, start_time := 480,
         end_time := 720, session_name := "Session 1", is_active := true }]
      1 721 = none := by
  have hmain : ∀ u : Nat, (isWithinMeetingSchedule table d u).isSome ↔
      ∃ s ∈ table, s.is_active = true ∧ s.day_of_week = d ∧
        s.start_time ≤ u ∧ u ≤ s.end_time := by
    intro u
    simp only [isWithinMeetingSchedule, List.find?_isSome, Bool.and_eq_true,
      beq_iff_eq, decide_eq_true_eq]
    constructor
    · rintro ⟨s, hs, ⟨⟨hday, hact⟩, hst⟩, hen⟩
      exact ⟨s, hs, hact, hday, hst, hen⟩
    · rintro ⟨s, hs, hact, hday, hst, hen⟩
      exact ⟨s, hs, ⟨⟨hday, hact⟩, hst⟩, hen⟩
  refine ⟨hmain t, ?_, by decide⟩
  intro s hs hact hday hse
  exact ⟨(hmain s.start_time).mpr ⟨s, hs, hact, hday, le_refl _, hse⟩,
    (hmain s.end_time).mpr ⟨s, hs, hact, hday, hse, le_refl _⟩⟩

theorem mem_todayUpcoming (table : List MeetingSchedule) (d t : Nat)
    (s : MeetingSchedule) :
    s ∈ todayUpcoming table d t ↔
      s ∈ table ∧ s.is_active = true ∧ s.day_of_week = d ∧ t < s.start_time := by
  simp only [todayUpcoming, List.mem_filter, Bool.and_eq_true, beq_iff_eq,
    decide_eq_true_eq]
  tauto

theorem mem_laterInWeek (table : List MeetingSchedule) (d : Nat) (hd : d ≤ 6)
    (s : MeetingSchedule) :
    s ∈ laterInWeek table d ↔
      s ∈ table ∧ s.is_active = true ∧ s.day_of_week ≠ d ∧ s.day_of_week ≤ 6 := by
  simp only [laterInWeek, List.mem_filter, Bool.and_eq_true, Bool.or_eq_true,
    decide_eq_true_eq]
  constructor
  · rintro ⟨hmem, hcond, hact⟩
    refine ⟨hmem, hact, ?_, ?_⟩ <;> omega
  · rintro ⟨hmem, hact, hne, hle⟩
    exact ⟨hmem, by omega, hact⟩

theorem nextOrder_eq_true (d : Nat) (a b : MeetingSchedule) :
    nextOrder d a b = true ↔
      wrapDay d a < wrapDay d b ∨
        (wrapDay d a = wrapDay d b ∧ a.session_number ≤ b.session_number) := by
  simp [nextOrder]

/-- C1 counterexample: with a single active session on weekday 1 from 08:00
(480) to 12:00 (720), a query at weekday 1, 12:05 (725) returns none from
getNextMeetingSession although an active session exists — the function does
not wrap to next week for sessions on the current weekday, contradicting the
claim that none is returned only when no active sessions exist at all. -/
theorem getNextMeetingSession_no_wrap_today :
    getNextMeetingSession
      [{ day_of_week := 1, session_number := 1, start_time := 480,
         end_time := 720, session_name := "Session 1", is_active := true }]
      1 725 = none ∧
    ({ day_of_week := 1, session_number := 1, start_time := 480,
       end_time := 720, session_name := "Session 1",
       is_active := true } : MeetingSchedule).is_active = true := by
  exact ⟨by decide, rfl⟩

/-- C1 (amended): getNextMeetingSession returns the active session later today
(same weekday, start_time strictly after now) with the least start_time when
one exists; otherwise an active session on a strictly different weekday that
is minimal in (wrapped day distance, session_number) order; it returns none
exactly when no active session today starts strictly after now and no active
session lies on a different weekday ≤ 6 — sessions on the current weekday
that have already started are never returned, so the result can be none even
though active sessions exist. -/
theorem getNextMeetingSession_spec (table : List MeetingSchedule) (d t : Nat)
    (hd : d ≤ 6) :
    (getNextMeetingSession table d t = none ↔
      (∀ s ∈ table, s.is_active = true → s.day_of_week = d → s.start_time ≤ t) ∧
      (∀ s ∈ table, s.is_active = true → s.day_of_week ≤ 6 → s.day_of_week = d)) ∧
    (∀ s, getNextMeetingSession table d t = some s →
      s ∈ table ∧ s.is_active = true ∧
      ((s.day_of_week = d ∧ t < s.start_time ∧
          ∀ b ∈ table, b.is_active = true → b.day_of_week = d →
            t < b.start_time → s.start_time ≤ b.start_time) ∨
        (s.day_of_week ≠ d ∧ s.day_of_week ≤ 6 ∧
          (∀ b ∈ table, b.is_active = true → b.day_of_week = d →
            b.start_time ≤ t) ∧
          ∀ b ∈ table, b.is_active = true → b.day_of_week ≠ d →
            b.day_of_week ≤ 6 →
            wrapDay d s < wrapDay d b ∨
              (wrapDay d s = wrapDay d b ∧
                s.session_number ≤ b.session_number)))) := by
  have hTotS : ∀ a b : MeetingSchedule,
      decide (a.start_time ≤ b.start_time) = true ∨
        decide (b.start_time ≤ a.start_time) = true := by
    intro a b
    simp only [decide_eq_true_eq]
    omega
  have hTransS : ∀ a b c : MeetingSchedule,
      decide (a.start_time ≤ b.start_time) = true →
        decide (b.start_time ≤ c.start_time) = true →
          decide (a.start_time ≤ c.start_time) = true := by
    intro a b c
    simp only [decide_eq_true_eq]
    omega
  have hTotN : ∀ a b : MeetingSchedule,
      nextOrder d a b = true ∨ nextOrder d b a = true := by
    intro a b
    rw [nextOrder_eq_true, nextOrder_eq_true]
    omega
  have hTransN : ∀ a b c : MeetingSchedule,
      nextOrder d a b = true → nextOrder d b c = true →
        nextOrder d a c = true := by
    intro a b c
    rw [nextOrder_eq_true, nextOrder_eq_true, nextOrder_eq_true]
    omega
  have hTodayEmpty : todayUpcoming table d t = [] ↔
      ∀ s ∈ table, s.is_active = true → s.day_of_week = d → s.start_time ≤ t := by
    rw [List.eq_nil_iff_forall_not_mem]
    constructor
    · intro h s hs hact hday
      by_contra hlt
      exact h s ((mem_todayUpcoming table d t s).mpr ⟨hs, hact, hday, by omega⟩)
    · intro h s hmem
      rw [mem_todayUpcoming] at hmem
      have := h s hmem.1 hmem.2.1 hmem.2.2.1
      omega
  have hLaterEmpty : laterInWeek table d = [] ↔
      ∀ s ∈ table, s.is_active = true → s.day_of_week ≤ 6 → s.day_of_week = d := by
    rw [List.eq_nil_iff_forall_not_mem]
    constructor
    · intro h s hs hact hle
      by_contra hne
      exact h s ((mem_laterInWeek table d hd s).mpr ⟨hs, hact, hne, hle⟩)
    · intro h s hmem
      rw [mem_laterInWeek table d hd] at hmem
      exact hmem.2.2.1 (h s hmem.1 hmem.2.1 hmem.2.2.2)
  have hNone : getNextMeetingSession table d t = none ↔
      todayUpcoming table d t = [] ∧ laterInWeek table d = [] := by
    unfold getNextMeetingSession
    cases hsel : selectMinBy (fun a b => decide (a.start_time ≤ b.start_time))
        (todayUpcoming table d t) with
    | none =>
      simp only [Option.elim_none]
      rw [selectMinBy_eq_none] at hsel
      rw [selectMinBy_eq_none]
      simp [hsel]
    | some s =>
      simp only [Option.elim_some]
      constructor
      · intro h
        exact absurd h (Option.some_ne_none s)
      · rintro ⟨h1, h2⟩
        rw [h1] at hsel
        simp [selectMinBy] at hsel
  refine ⟨by rw [hNone, hTodayEmpty, hLaterEmpty], ?_⟩
  intro s hs
  unfold getNextMeetingSession at hs
  cases hsel : selectMinBy (fun a b => decide (a.start_time ≤ b.start_time))
      (todayUpcoming table d t) with
  | some w =>
    rw [hsel] at hs
    simp only [Option.elim_some, Option.some.injEq] at hs
    rw [← hs]
    have hm := selectMinBy_mem _ _ _ hsel
    have hmin := selectMinBy_min _ hTotS hTransS _ _ hsel
    rw [mem_todayUpcoming] at hm
    refine ⟨hm.1, hm.2.1, Or.inl ⟨hm.2.2.1, hm.2.2.2, ?_⟩⟩
    intro b hb hact hday hlt
    have := hmin b ((mem_todayUpcoming table d t b).mpr ⟨hb, hact, hday, hlt⟩)
    simpa using this
  | none =>
    rw [hsel] at hs
    simp only [Option.elim_none] at hs
    have hm := selectMinBy_mem _ _ _ hs
    have hmin := selectMinBy_min _ hTotN hTransN _ _ hs
    rw [mem_laterInWeek table d hd] at hm
    have hTE : todayUpcoming table d t = [] := (selectMinBy_eq_none _ _).mp hsel
    refine ⟨hm.1, hm.2.1,
      Or.inr ⟨hm.2.2.1, hm.2.2.2, hTodayEmpty.mp hTE, ?_⟩⟩
    intro b hb hact hne hle6
    have := hmin b ((mem_laterInWeek table d hd b).mpr ⟨hb, hact, hne, hle6⟩)
    rw [nextOrder_eq_true] at this
    exact this

/-- Witness for the hypotheses of getNextMeetingSession_spec at a concrete
input: weekday 1 at 12:05 with a single active Monday morning session. -/
theorem getNextMeetingSession_spec_witness :
    getNextMeetingSession
      [{ day_of_week := 1, session_number := 1, start_time := 480,
         end_time := 720, session_name := "Session 1", is_active := true }]
      1 725 = none := by
  refine (getNextMeetingSession_spec
    [{ day_of_week := 1, session_number := 1, start_time := 480,
       end_time := 720, session_name := "Session 1", is_active := true }]
    1 725 (by decide)).1.mpr ⟨?_, ?_⟩ <;> decide

/-- One armed cron trigger of the meeting-end auto-logout scheduler
(src/server.js:51-59): the cron expression minute/hour fields and the day and
session key of the scheduler map entry. -/
structure Trigger where
  day_of_week : Nat
  session_number : Nat
  hour : Nat
  minute : Nat
deriving Repr, DecidableEq

/-- Trigger computation of `initializeMeetingScheduler` (src/server.js:32-52):
split end_time into hour and minute, add 15 minutes, roll minute overflow into
the hour, wrap the hour past midnight, and keep the day_of_week of the session
itself. -/
def mkTrigger (s : MeetingSchedule) : Trigger :=
  let hour := s.end_time / 60
  let minute := s.end_time % 60
  let logoutMinute0 := minute + 15
  let logoutMinute := if 60 ≤ logoutMinute0 then logoutMinute0 - 60 else logoutMinute0
  let logoutHour0 := if 60 ≤ logoutMinute0 then hour + 1 else hour
  let logoutHour := if 24 ≤ logoutHour0 then logoutHour0 - 24 else logoutHour0
  { day_of_week := s.day_of_week, session_number := s.session_number,
    hour := logoutHour, minute := logoutMinute }

/-- `Database.getMeetingSchedules` (src/database.js:440): the active rows.
The ORDER BY clause affects presentation order only and is dropped. -/
def getMeetingSchedules (table : List MeetingSchedule) : List MeetingSchedule :=
  table.filter fun s => s.is_active

/-- `initializeMeetingScheduler` (src/server.js:20-62) acting on the armed
trigger table: the existing triggers are stopped and the map cleared first,
then the active schedules are read; when the read fails the function returns
with nothing armed, otherwise it arms one trigger per row read.  The old
trigger set is passed to mirror the mutation of the global map and is
discarded unconditionally. -/
def initMeetingScheduler (_old : List Trigger)
    (readSchedules : Except Unit (List MeetingSchedule)) : List Trigger :=
  match readSchedules with
  | Except.error _ => []
  | Except.ok schedules => schedules.map mkTrigger

/-- C2 counterexample: a rearm whose schedule read fails leaves the empty
trigger table, not the previously armed one — the old trigger is discarded
before the read, so a failed rearm does not keep the previous trigger set
valid. -/
theorem initMeetingScheduler_failure_clears :
    initMeetingScheduler
      [{ day_of_week := 1, session_number := 1, hour := 21, minute := 15 }]
      (Except.error ()) = [] ∧
    [({ day_of_week := 1, session_number := 1, hour := 21, minute := 15 } :
      Trigger)] ≠ [] := by
  exact ⟨rfl, by decide⟩

/-- C2 (amended): a rearm always discards the previously armed triggers first;
when the schedule read fails nothing is armed and the trigger table is left
empty (not the previous set), and when it succeeds exactly one trigger per row
read is armed.  The result never depends on the previously armed set. -/
theorem initMeetingScheduler_spec (old : List Trigger)
    (readSchedules : Except Unit (List MeetingSchedule)) :
    (∀ e, readSchedules = Except.error e →
      initMeetingScheduler old readSchedules = []) ∧
    (∀ schedules, readSchedules = Except.ok schedules →
      initMeetingScheduler old readSchedules = schedules.map mkTrigger) ∧
    initMeetingScheduler old readSchedules =
      initMeetingScheduler [] readSchedules := by
  cases readSchedules with
  | error e =>
    exact ⟨fun _ _ => rfl, fun s h => Except.noConfusion h, rfl⟩
  | ok schedules =>
    refine ⟨fun e h => Except.noConfusion h, fun s h => ?_, rfl⟩
    injection h with h
    rw [← h]
    rfl

/-- Witness for initMeetingScheduler_spec at a concrete input: a successful
read of one active session arms exactly its trigger. -/
theorem initMeetingScheduler_spec_witness :
    initMeetingScheduler
      [{ day_of_week := 2, session_number := 1, hour := 9, minute := 0 }]
      (Except.ok
        [{ day_of_week := 1, session_number := 1, start_time := 480,
           end_time := 720, session_name := "Session 1", is_active := true }]) =
      [{ day_of_week := 1, session_number := 1, hour := 12, minute := 15 }] := by
  have h := (initMeetingScheduler_spec
    [{ day_of_week := 2, session_number := 1, hour := 9, minute := 0 }]
    (Except.ok
      [{ day_of_week := 1, session_number := 1, start_time := 480,
         end_time := 720, session_name := "Session 1", is_active := true }])).2.1
    [{ day_of_week := 1, session_number := 1, start_time := 480,
       end_time := 720, session_name := "Session 1", is_active := true }] rfl
  rw [h]
  decide

/-- C8: for every session with a valid end_time (before midnight), the armed
trigger keeps the day_of_week and session key of the session and its firing
time is end_time plus 15 minutes with minute overflow rolled into the hour and
hour overflow wrapped past midnight; a session ending at 23:50 (1430) triggers
at 00:05 on the same day_of_week.  Every active session read by a successful
rearm gets exactly this trigger armed. -/
theorem mkTrigger_spec (s : MeetingSchedule) (h : s.end_time < 1440) :
    (mkTrigger s).day_of_week = s.day_of_week ∧
    (mkTrigger s).session_number = s.session_number ∧
    (mkTrigger s).hour * 60 + (mkTrigger s).minute = (s.end_time + 15) % 1440 ∧
    (mkTrigger s).hour < 24 ∧ (mkTrigger s).minute < 60 ∧
    (s.end_time = 1430 → (mkTrigger s).hour = 0 ∧ (mkTrigger s).minute = 5) ∧
    ∀ old schedules, s ∈ schedules →
      mkTrigger s ∈ initMeetingScheduler old (Except.ok schedules) := by
  refine ⟨rfl, rfl, ?_, ?_, ?_, ?_, ?_⟩
  · simp only [mkTrigger]
    split_ifs <;> omega
  · simp only [mkTrigger]
    split_ifs <;> omega
  · simp only [mkTrigger]
    split_ifs <;> omega
  · intro he
    simp only [mkTrigger, he]
    constructor <;> rfl
  · intro old schedules hmem
    simp only [initMeetingScheduler]
    exact List.mem_map_of_mem mkTrigger hmem

/-- Witness for mkTrigger_spec at the concrete session ending 23:50. -/
theorem mkTrigger_spec_witness :
    (mkTrigger
      { day_of_week := 3, session_number := 2, start_time := 1400,
        end_time := 1430, session_name := "Late", is_active := true }).hour = 0 ∧
    (mkTrigger
      { day_of_week := 3, session_number := 2, start_time := 1400,
        end_time := 1430, session_name := "Late",
        is_active := true }).minute = 5 := by
  exact (mkTrigger_spec
    { day_of_week := 3, session_number := 2, start_time := 1400,
      end_time := 1430, session_name := "Late", is_active := true }
    (by decide)).2.2.2.2.2.1 rfl

/-- The WHERE clause of `Database.getCurrentlyCheckedInMembers`
(src/database.js:357-367): the member owns an attendance record carrying the
maximal record id among that member rows (the subselect MAX(id)) which is a
check-in. -/
def isCheckedIn (records : List AttendanceRecord) (memberId : Nat) : Bool :=
  records.any fun r =>
    r.member_id == memberId && r.is_checkin &&
      records.all fun r2 => !(r2.member_id == memberId) || decide (r2.id ≤ r.id)

/-- `Database.getCurrentlyCheckedInMembers` (src/database.js:344-369): the
members whose latest record by id is a check-in.  The preliminary COUNT
short-circuit, the DISTINCT, the projection to (id, name, last_checkin) and
the ORDER BY only shape the result rows and are dropped; the set of members
is recomputed from the record list on every call. -/
def getCurrentlyCheckedInMembers (members : List Member)
    (records : List AttendanceRecord) : List Member :=
  members.filter fun m => isCheckedIn records m.id

/-- Ordering on attendance records: more recent first — later scan_time
first, ties on identical scan_time broken by the higher record id. -/
def recentFirst (a b : AttendanceRecord) : Bool :=
  decide (b.scan_time < a.scan_time) ||
    (decide (b.scan_time = a.scan_time) && decide (b.id ≤ a.id))

/-- The most recent attendance record of a member as the specification words
it: latest scan_time, ties on identical timestamp broken by the highest
record id. -/
def specLatestRecord (records : List AttendanceRecord) (memberId : Nat) :
    Option AttendanceRecord :=
  selectMinBy recentFirst (records.filter fun r => r.member_id == memberId)

theorem recentFirst_eq_true (a b : AttendanceRecord) :
    recentFirst a b = true ↔
      b.scan_time < a.scan_time ∨
        (b.scan_time = a.scan_time ∧ b.id ≤ a.id) := by
  simp [recentFirst]

theorem recentFirst_total (a b : AttendanceRecord) :
    recentFirst a b = true ∨ recentFirst b a = true := by
  rw [recentFirst_eq_true, recentFirst_eq_true]
  omega

theorem recentFirst_trans (a b c : AttendanceRecord) :
    recentFirst a b = true → recentFirst b c = true → recentFirst a c = true := by
  rw [recentFirst_eq_true, recentFirst_eq_true, recentFirst_eq_true]
  omega

theorem mem_memberRecords (records : List AttendanceRecord) (mid : Nat)
    (r : AttendanceRecord) :
    r ∈ records.filter (fun r2 => r2.member_id == mid) ↔
      r ∈ records ∧ r.member_id = mid := by
  simp [List.mem_filter]

theorem isCheckedIn_eq_true (records : List AttendanceRecord) (mid : Nat) :
    isCheckedIn records mid = true ↔
      ∃ r ∈ records, r.member_id = mid ∧ r.is_checkin = true ∧
        ∀ r2 ∈ records, r2.member_id = mid → r2.id ≤ r.id := by
  simp only [isCheckedIn, List.any_eq_true, Bool.and_eq_true, beq_iff_eq,
    List.all_eq_true, Bool.or_eq_true, Bool.not_eq_true', beq_eq_false_iff_ne,
    decide_eq_true_eq, ne_eq]
  constructor
  · rintro ⟨r, hr, ⟨⟨hmid, hc⟩, hall⟩⟩
    refine ⟨r, hr, hmid, hc, ?_⟩
    intro r2 hr2 hmid2
    rcases hall r2 hr2 with h | h
    · exact absurd hmid2 h
    · exact h
  · rintro ⟨r, hr, hmid, hc, hall⟩
    refine ⟨r, hr, ⟨⟨hmid, hc⟩, ?_⟩⟩
    intro r2 hr2
    by_cases h2 : r2.member_id = mid
    · exact Or.inr (hall r2 hr2 h2)
    · exact Or.inl h2

/-- C3: on a store whose record ids are unique and whose scan_times are
monotone in the record id per member (both hold for every store the system
produces, since ids and timestamps are assigned together at insertion), the
members returned by getCurrentlyCheckedInMembers are exactly the members of
the member table whose most recent record — latest scan_time, ties on
identical timestamp broken by the highest id — has is_checkin = true. -/
theorem getCurrentlyCheckedInMembers_spec (members : List Member)
    (records : List AttendanceRecord)
    (hid : ∀ r1 ∈ records, ∀ r2 ∈ records, r1.id = r2.id → r1 = r2)
    (hmono : ∀ r1 ∈ records, ∀ r2 ∈ records, r1.member_id = r2.member_id →
      r1.id ≤ r2.id → r1.scan_time ≤ r2.scan_time) :
    ∀ m, m ∈ getCurrentlyCheckedInMembers members records ↔
      m ∈ members ∧ ∃ r, specLatestRecord records m.id = some r ∧
        r.is_checkin = true := by
  intro m
  rw [getCurrentlyCheckedInMembers, List.mem_filter]
  refine and_congr_right fun _ => ?_
  rw [isCheckedIn_eq_true]
  unfold specLatestRecord
  constructor
  · rintro ⟨r, hr, hmid, hc, hall⟩
    have hrf : r ∈ records.filter (fun r2 => r2.member_id == m.id) :=
      (mem_memberRecords records m.id r).mpr ⟨hr, hmid⟩
    cases hsel : selectMinBy recentFirst
        (records.filter fun r2 => r2.member_id == m.id) with
    | none =>
      rw [selectMinBy_eq_none] at hsel
      rw [hsel] at hrf
      exact absurd hrf (List.not_mem_nil r)
    | some c =>
      have hcmem := selectMinBy_mem _ _ _ hsel
      rw [mem_memberRecords] at hcmem
      have hcr := selectMinBy_min recentFirst recentFirst_total
        recentFirst_trans _ _ hsel r hrf
      have hcid : c.id ≤ r.id := hall c hcmem.1 hcmem.2
      have hct : c.scan_time ≤ r.scan_time :=
        hmono c hcmem.1 r hr (by rw [hcmem.2, hmid]) hcid
      rw [recentFirst_eq_true] at hcr
      have hideq : r.id = c.id := by omega
      have hrc : r = c := hid r hr c hcmem.1 hideq
      exact ⟨c, rfl, by rw [← hrc]; exact hc⟩
  · rintro ⟨r, hsel, hc⟩
    have hrmem := selectMinBy_mem _ _ _ hsel
    have hmin := selectMinBy_min recentFirst recentFirst_total
      recentFirst_trans _ _ hsel
    rw [mem_memberRecords] at hrmem
    refine ⟨r, hrmem.1, hrmem.2, hc, ?_⟩
    intro r2 hr2 hmid2
    have h2f : r2 ∈ records.filter (fun r3 => r3.member_id == m.id) :=
      (mem_memberRecords records m.id r2).mpr ⟨hr2, hmid2⟩
    have hrf2 := hmin r2 h2f
    rw [recentFirst_eq_true] at hrf2
    rcases le_or_lt r2.id r.id with hle | hlt
    · exact hle
    · have hts : r.scan_time ≤ r2.scan_time :=
        hmono r hrmem.1 r2 hr2 (by rw [hrmem.2, hmid2]) (Nat.le_of_lt hlt)
      omega

/-- Witness for getCurrentlyCheckedInMembers_spec on a one-member store whose
only record is a check-in. -/
theorem getCurrentlyCheckedInMembers_spec_witness :
    ({ id := 1, name := "A" } : Member) ∈
      getCurrentlyCheckedInMembers [{ id := 1, name := "A" }]
        [{ id := 1, member_id := 1, scan_time := 100, is_checkin := true,
           is_auto_logout := false, needs_review := false }] := by
  refine (getCurrentlyCheckedInMembers_spec [{ id := 1, name := "A" }]
    [{ id := 1, member_id := 1, scan_time := 100, is_checkin := true,
       is_auto_logout := false, needs_review := false }]
    (by decide) (by decide) { id := 1, name := "A" }).mpr
    ⟨by decide, ?_⟩
  exact ⟨{ id := 1, member_id := 1, scan_time := 100, is_checkin := true,
           is_auto_logout := false, needs_review := false }, by decide, rfl⟩

/-- `Database.getLastScanForMember` (src/database.js:408): the member rows
ordered by scan_time descending, first row only.  SQLite leaves the relative
order of rows with equal scan_time unspecified; the model breaks such ties by
the highest record id, which is the insertion order under the store invariant
that record ids and scan_times increase together. -/
def getLastScanForMember (records : List AttendanceRecord) (memberId : Nat) :
    Option AttendanceRecord :=
  selectMinBy recentFirst (records.filter fun r => r.member_id == memberId)

/-- Outcome of `POST /api/attendance/scan` for a recognised member: either a
403 rejection carrying the next-session hint, or a recorded scan with its
direction and review flag. -/
inductive ScanResult where
  | rejected (nextSession : Option MeetingSchedule)
  | accepted (is_checkin : Bool) ( needs_review : Bool)
deriving Repr, DecidableEq

/-- Direction decision of the scan route (src/server.js:389): check-in iff
there is no previous scan or the last scan was not a check-in. -/
def scanIsCheckin (records : List AttendanceRecord) (memberId : Nat) : Bool :=
  (getLastScanForMember records memberId).elim true fun lastScan =>
    !lastScan.is_checkin

/-- Review flag of `recordAttendanceWithSession` (src/server.js:441-452): the
minutes until session end, flagged when ≤ 5 and ≥ 0.  The subtraction is on
integers as in the source. -/
def flagNearEnd (session : MeetingSchedule) (currentTime : Nat) : Bool :=
  decide ((session.end_time : Int) - (currentTime : Int) ≤ 5) &&
    decide (0 ≤ (session.end_time : Int) - (currentTime : Int))

/-- `POST /api/attendance/scan` for a recognised member together with
`recordAttendanceWithSession` (src/server.js:365-481): classify the scan
direction from the last scan, gate check-ins by the schedule (rejecting with
the next-session hint and writing nothing when no session is active), flag
near-end check-ins, and append the inserted row; check-outs are recorded
directly with no schedule check and no flag.  newId is the AUTOINCREMENT id
of the inserted row and scanTime its CURRENT_TIMESTAMP; the source reads the
clock again inside the helper, modelled as the same instant. -/
def scanAttendance (table : List MeetingSchedule)
    (records : List AttendanceRecord)
    (memberId dayOfWeek currentTime scanTime newId : Nat) :
    ScanResult × List AttendanceRecord :=
  if scanIsCheckin records memberId then
    (isWithinMeetingSchedule table dayOfWeek currentTime).elim
      (ScanResult.rejected (getNextMeetingSession table dayOfWeek currentTime),
       records)
      fun activeSession =>
        (ScanResult.accepted true (flagNearEnd activeSession currentTime),
         records ++
           [{ id := newId, member_id := memberId, scan_time := scanTime,
              is_checkin := true, is_auto_logout := false,
              needs_review := flagNearEnd activeSession currentTime }])
  else
    (ScanResult.accepted false false,
     records ++
       [{ id := newId, member_id := memberId, scan_time := scanTime,
          is_checkin := false, is_auto_logout := false,
          needs_review := false }])

/-- Concrete one-session table used by witnesses: Monday 08:00 (480) to
12:00 (720), active. -/
def demoTable : List MeetingSchedule :=
  [{ day_of_week := 1, session_number := 1, start_time := 480, end_time := 720,
     session_name := "Session 1", is_active := true }]

/-- Concrete record list used by witnesses: member 1 checked in at time 100. -/
def demoRecords : List AttendanceRecord :=
  [{ id := 1, member_id := 1, scan_time := 100, is_checkin := true,
     is_auto_logout := false, needs_review := false }]

/-- C5: a scan classifies as a check-in iff the member has no prior record or
the most recent record is a check-out; a member with no records always
classifies as a check-in; a check-out is always permitted — it is persisted
with needs_review = false (and is_auto_logout = false) without consulting the
schedule table, whose content does not affect the outcome. -/
theorem scan_direction_spec (table : List MeetingSchedule)
    (records : List AttendanceRecord)
    (memberId dayOfWeek currentTime scanTime newId : Nat) :
    (scanIsCheckin records memberId = true ↔
      getLastScanForMember records memberId = none ∨
      ∃ r, getLastScanForMember records memberId = some r ∧
        r.is_checkin = false) ∧
    ((records.filter fun r => r.member_id == memberId) = [] →
      scanIsCheckin records memberId = true) ∧
    (scanIsCheckin records memberId = false →
      scanAttendance table records memberId dayOfWeek currentTime scanTime
          newId =
        (ScanResult.accepted false false,
         records ++
           [{ id := newId, member_id := memberId, scan_time := scanTime,
              is_checkin := false, is_auto_logout := false,
              needs_review := false }]) ∧
      ∀ table2, scanAttendance table2 records memberId dayOfWeek currentTime
          scanTime newId =
        scanAttendance table records memberId dayOfWeek currentTime scanTime
          newId) := by
  refine ⟨?_, ?_, ?_⟩
  · cases hlast : getLastScanForMember records memberId with
    | none => simp [scanIsCheckin, hlast]
    | some r => simp [scanIsCheckin, hlast, Bool.not_eq_true']
  · intro hfil
    unfold scanIsCheckin getLastScanForMember
    rw [hfil]
    rfl
  · intro hneg
    constructor
    · unfold scanAttendance
      rw [hneg]
      rfl
    · intro table2
      unfold scanAttendance
      rw [hneg]
      rfl

/-- Witness for scan_direction_spec: member 1 last checked in, so the next
scan is a check-out recorded directly with no review flag. -/
theorem scan_direction_spec_witness :
    scanAttendance [] demoRecords 1 1 500 600 2 =
      (ScanResult.accepted false false,
       demoRecords ++
         [{ id := 2, member_id := 1, scan_time := 600, is_checkin := false,
            is_auto_logout := false, needs_review := false }]) := by
  exact ((scan_direction_spec [] demoRecords 1 1 500 600 2).2.2 (by decide)).1

/-- C6: an accepted check-in inside an active session appends a record whose
needs_review flag is set iff the session end_time minus the scan time-of-day
lies in the inclusive range [0, 5] minutes; a check-in 3 minutes before (or
exactly at) end_time is flagged, one 10 minutes before is not. -/
theorem checkin_flag_spec (table : List MeetingSchedule)
    (records : List AttendanceRecord)
    (memberId dayOfWeek currentTime scanTime newId : Nat)
    (s : MeetingSchedule)
    (hdir : scanIsCheckin records memberId = true)
    (hin : isWithinMeetingSchedule table dayOfWeek currentTime = some s) :
    scanAttendance table records memberId dayOfWeek currentTime scanTime
        newId =
      (ScanResult.accepted true (flagNearEnd s currentTime),
       records ++
         [{ id := newId, member_id := memberId, scan_time := scanTime,
            is_checkin := true, is_auto_logout := false,
            needs_review := flagNearEnd s currentTime }]) ∧
    (flagNearEnd s currentTime = true ↔
      0 ≤ (s.end_time : Int) - (currentTime : Int) ∧
        (s.end_time : Int) - (currentTime : Int) ≤ 5) ∧
    (currentTime + 3 = s.end_time → flagNearEnd s currentTime = true) ∧
    (currentTime = s.end_time → flagNearEnd s currentTime = true) ∧
    (currentTime + 10 = s.end_time → flagNearEnd s currentTime = false) := by
  have hflag : flagNearEnd s currentTime = true ↔
      0 ≤ (s.end_time : Int) - (currentTime : Int) ∧
        (s.end_time : Int) - (currentTime : Int) ≤ 5 := by
    simp only [flagNearEnd, Bool.and_eq_true, decide_eq_true_eq]
    tauto
  have hmain : scanAttendance table records memberId dayOfWeek currentTime
      scanTime newId =
      (ScanResult.accepted true (flagNearEnd s currentTime),
       records ++
         [{ id := newId, member_id := memberId, scan_time := scanTime,
            is_checkin := true, is_auto_logout := false,
            needs_review := flagNearEnd s currentTime }]) := by
    unfold scanAttendance
    rw [hdir, hin]
    rfl
  refine ⟨hmain, hflag, ?_, ?_, ?_⟩
  · intro h
    rw [hflag]
    omega
  · intro h
    rw [hflag]
    omega
  · intro h
    cases hf : flagNearEnd s currentTime
    · rfl
    · exfalso
      have hc := hflag.mp hf
      omega

/-- Witness for checkin_flag_spec: a first scan at 11:58 inside the Monday
session is accepted as a check-in and flagged for review. -/
theorem checkin_flag_spec_witness :
    scanAttendance demoTable [] 1 1 718 718 1 =
      (ScanResult.accepted true true,
       [{ id := 1, member_id := 1, scan_time := 718, is_checkin := true,
          is_auto_logout := false, needs_review := true }]) := by
  rw [(checkin_flag_spec demoTable [] 1 1 718 718 1
    { day_of_week := 1, session_number := 1, start_time := 480,
      end_time := 720, session_name := "Session 1", is_active := true }
    (by decide) (by decide)).1]
  decide

/-- C7: a scan classified as a check-in while no session is active is
rejected with the next-session hint from getNextMeetingSession and the
attendance store is returned unchanged — no record is persisted. -/
theorem scan_rejected_spec (table : List MeetingSchedule)
    (records : List AttendanceRecord)
    (memberId dayOfWeek currentTime scanTime newId : Nat)
    (hdir : scanIsCheckin records memberId = true)
    (hnone : isWithinMeetingSchedule table dayOfWeek currentTime = none) :
    scanAttendance table records memberId dayOfWeek currentTime scanTime
        newId =
      (ScanResult.rejected (getNextMeetingSession table dayOfWeek currentTime),
       records) := by
  unfold scanAttendance
  rw [hdir, hnone]
  rfl

/-- Witness for scan_rejected_spec: a first scan at 12:05 on Monday is
rejected and writes nothing. -/
theorem scan_rejected_spec_witness :
    scanAttendance demoTable [] 1 1 725 725 1 =
      (ScanResult.rejected none, []) := by
  exact (scan_rejected_spec demoTable [] 1 1 725 725 1
    (by decide) (by decide)).trans (by decide)

/-- The per-member loop of `performMeetingEndLogout` (src/server.js:82-97):
each checked-in member gets one `recordAutoLogout` insert
(src/database.js:329-332: is_checkin false, is_auto_logout true, needs_review
true).  writeOk says whether the insert for a member id succeeds; a failed
insert writes nothing, is counted as an error and the loop continues with the
remaining members.  Returns the inserted rows in order together with the
success count and the error count; successful inserts receive consecutive
AUTOINCREMENT ids starting at nextId. -/
def logoutPass (writeOk : Nat → Bool) (scanTime : Nat) :
    List Member → Nat → List AttendanceRecord × Nat × Nat
  | [], _ => ([], 0, 0)
  | m :: rest, nextId =>
    if writeOk m.id then
      ({ id := nextId, member_id := m.id, scan_time := scanTime,
         is_checkin := false, is_auto_logout := true, needs_review := true } ::
          (logoutPass writeOk scanTime rest (nextId + 1)).1,
       (logoutPass writeOk scanTime rest (nextId + 1)).2.1 + 1,
       (logoutPass writeOk scanTime rest (nextId + 1)).2.2)
    else
      ((logoutPass writeOk scanTime rest nextId).1,
       (logoutPass writeOk scanTime rest nextId).2.1,
       (logoutPass writeOk scanTime rest nextId).2.2 + 1)

/-- `performMeetingEndLogout` (src/server.js:65-99): compute the currently
checked-in members; when there are none, log and return without writing;
otherwise run the per-member loop and report the success and error counts. -/
def performMeetingEndLogout (members : List Member)
    (records : List AttendanceRecord) (writeOk : Nat → Bool)
    (scanTime nextId : Nat) : List AttendanceRecord × Nat × Nat :=
  let checkedIn := getCurrentlyCheckedInMembers members records
  if checkedIn.isEmpty then (records, 0, 0)
  else
    (records ++ (logoutPass writeOk scanTime checkedIn nextId).1,
     (logoutPass writeOk scanTime checkedIn nextId).2.1,
     (logoutPass writeOk scanTime checkedIn nextId).2.2)

theorem filter_cons_length_pos {α : Type} (p : α → Bool) (a : α) (l : List α)
    (h : p a = true) :
    ((a :: l).filter p).length = (l.filter p).length + 1 := by
  simp [List.filter_cons, h]

theorem filter_cons_length_neg {α : Type} (p : α → Bool) (a : α) (l : List α)
    (h : p a = false) :
    ((a :: l).filter p).length = (l.filter p).length := by
  simp [List.filter_cons, h]

theorem logoutPass_spec (writeOk : Nat → Bool) (scanTime : Nat)
    (l : List Member) (nextId : Nat) :
    (logoutPass writeOk scanTime l nextId).2.1 =
      (l.filter fun m => writeOk m.id).length ∧
    (logoutPass writeOk scanTime l nextId).2.2 =
      (l.filter fun m => !writeOk m.id).length ∧
    (∀ m ∈ l, writeOk m.id = true →
      ∃ r ∈ (logoutPass writeOk scanTime l nextId).1,
        r.member_id = m.id ∧ r.is_checkin = false ∧
          r.is_auto_logout = true ∧ r.needs_review = true) ∧
    (∀ r ∈ (logoutPass writeOk scanTime l nextId).1,
      r.is_checkin = false ∧ r.is_auto_logout = true ∧
        r.needs_review = true ∧
        ∃ m ∈ l, writeOk m.id = true ∧ r.member_id = m.id) := by
  induction l generalizing nextId with
  | nil => simp [logoutPass]
  | cons m rest ih =>
    by_cases hok : writeOk m.id = true
    · rcases ih (nextId + 1) with ⟨ih1, ih2, ih3, ih4⟩
      refine ⟨?_, ?_, ?_, ?_⟩
      · simp only [logoutPass, if_pos hok]
        rw [filter_cons_length_pos (fun x : Member => writeOk x.id) m rest hok,
          ih1]
      · simp only [logoutPass, if_pos hok]
        rw [filter_cons_length_neg (fun x : Member => !writeOk x.id) m rest
          (by simp [hok])]
        exact ih2
      · intro m2 hm2 hok2
        simp only [logoutPass, if_pos hok]
        rcases List.mem_cons.mp hm2 with hbc | hbl
        · refine ⟨_, List.mem_cons_self _ _, ?_, rfl, rfl, rfl⟩
          rw [hbc]
        · rcases ih3 m2 hbl hok2 with ⟨r, hr, hrp⟩
          exact ⟨r, List.mem_cons_of_mem _ hr, hrp⟩
      · intro r hr
        simp only [logoutPass, if_pos hok] at hr
        rcases List.mem_cons.mp hr with hbc | hbl
        · rw [hbc]
          exact ⟨rfl, rfl, rfl, m, List.mem_cons_self _ _, hok, rfl⟩
        · rcases ih4 r hbl with ⟨h1, h2, h3, m2, hm2, hm2ok, hm2id⟩
          exact ⟨h1, h2, h3, m2, List.mem_cons_of_mem _ hm2, hm2ok, hm2id⟩
    · rcases ih nextId with ⟨ih1, ih2, ih3, ih4⟩
      have hfalse : writeOk m.id = false := by
        revert hok
        cases writeOk m.id <;> simp
      refine ⟨?_, ?_, ?_, ?_⟩
      · simp only [logoutPass, if_neg hok]
        rw [filter_cons_length_neg (fun x : Member => writeOk x.id) m rest
          hfalse]
        exact ih1
      · simp only [logoutPass, if_neg hok]
        rw [filter_cons_length_pos (fun x : Member => !writeOk x.id) m rest
          (by simp [hfalse]), ih2]
      · intro m2 hm2 hok2
        simp only [logoutPass, if_neg hok]
        rcases List.mem_cons.mp hm2 with hbc | hbl
        · rw [hbc] at hok2
          exact absurd hok2 hok
        · exact ih3 m2 hbl hok2
      · intro r hr
        simp only [logoutPass, if_neg hok] at hr
        rcases ih4 r hr with ⟨h1, h2, h3, m2, hm2, hm2ok, hm2id⟩
        exact ⟨h1, h2, h3, m2, List.mem_cons_of_mem _ hm2, hm2ok, hm2id⟩

/-- C9: the force-logout pass first computes the checked-in member set; when
that set is empty the pass is a no-op that writes nothing and reports zero
counts; otherwise it appends one record with is_checkin = false,
is_auto_logout = true and needs_review = true for every checked-in member
whose write succeeds — a failed write for one member does not prevent the
writes for the others, failures are counted and reported in aggregate, and
the pass is not aborted. -/
theorem performMeetingEndLogout_spec (members : List Member)
    (records : List AttendanceRecord) (writeOk : Nat → Bool)
    (scanTime nextId : Nat) :
    (getCurrentlyCheckedInMembers members records = [] →
      performMeetingEndLogout members records writeOk scanTime nextId =
        (records, 0, 0)) ∧
    ∃ newRecords,
      (performMeetingEndLogout members records writeOk scanTime nextId).1 =
        records ++ newRecords ∧
      (performMeetingEndLogout members records writeOk scanTime nextId).2.1 =
        ((getCurrentlyCheckedInMembers members records).filter fun m =>
          writeOk m.id).length ∧
      (performMeetingEndLogout members records writeOk scanTime nextId).2.2 =
        ((getCurrentlyCheckedInMembers members records).filter fun m =>
          !writeOk m.id).length ∧
      (∀ m ∈ getCurrentlyCheckedInMembers members records,
        writeOk m.id = true →
        ∃ r ∈ newRecords, r.member_id = m.id ∧ r.is_checkin = false ∧
          r.is_auto_logout = true ∧ r.needs_review = true) ∧
      (∀ r ∈ newRecords, r.is_checkin = false ∧ r.is_auto_logout = true ∧
        r.needs_review = true ∧
        ∃ m ∈ getCurrentlyCheckedInMembers members records,
          writeOk m.id = true ∧ r.member_id = m.id) := by
  by_cases he : (getCurrentlyCheckedInMembers members records).isEmpty = true
  · have hnil : getCurrentlyCheckedInMembers members records = [] := by
      rwa [List.isEmpty_iff] at he
    have hperf : performMeetingEndLogout members records writeOk scanTime
        nextId = (records, 0, 0) := by
      unfold performMeetingEndLogout
      rw [if_pos he]
    refine ⟨fun _ => hperf, [], ?_, ?_, ?_, ?_, ?_⟩
    · rw [hperf, List.append_nil]
    · rw [hperf, hnil]
      rfl
    · rw [hperf, hnil]
      rfl
    · rw [hnil]
      intro m hm
      exact absurd hm (List.not_mem_nil m)
    · intro r hr
      exact absurd hr (List.not_mem_nil r)
  · have hperf : performMeetingEndLogout members records writeOk scanTime
        nextId =
        (records ++ (logoutPass writeOk scanTime
            (getCurrentlyCheckedInMembers members records) nextId).1,
         (logoutPass writeOk scanTime
            (getCurrentlyCheckedInMembers members records) nextId).2.1,
         (logoutPass writeOk scanTime
            (getCurrentlyCheckedInMembers members records) nextId).2.2) := by
      unfold performMeetingEndLogout
      rw [if_neg he]
    rcases logoutPass_spec writeOk scanTime
      (getCurrentlyCheckedInMembers members records) nextId with
      ⟨h1, h2, h3, h4⟩
    refine ⟨?_, (logoutPass writeOk scanTime
      (getCurrentlyCheckedInMembers members records) nextId).1,
      by rw [hperf], by rw [hperf]; exact h1, by rw [hperf]; exact h2, h3, h4⟩
    intro hnil
    exact absurd (by rw [hnil]; rfl) he

/-- Witness for performMeetingEndLogout_spec: member 1 is checked in and the
write succeeds, so the pass appends exactly one flagged auto-logout record
and reports one success and no errors. -/
theorem performMeetingEndLogout_spec_witness :
    performMeetingEndLogout [{ id := 1, name := "A" }] demoRecords
      (fun _ => true) 700 2 =
      (demoRecords ++
        [{ id := 2, member_id := 1, scan_time := 700, is_checkin := false,
           is_auto_logout := true, needs_review := true }], 1, 0) := by
  rcases (performMeetingEndLogout_spec [{ id := 1, name := "A" }] demoRecords
    (fun _ => true) 700 2).2 with ⟨newRecords, hr, hs, herr, hall, honly⟩
  have hnew : newRecords =
      [{ id := 2, member_id := 1, scan_time := 700, is_checkin := false,
         is_auto_logout := true, needs_review := true }] := by
    have : performMeetingEndLogout [{ id := 1, name := "A" }] demoRecords
        (fun _ => true) 700 2 =
        (demoRecords ++
          [{ id := 2, member_id := 1, scan_time := 700, is_checkin := false,
             is_auto_logout := true, needs_review := true }], 1, 0) := by decide
    rw [this] at hr
    exact List.append_cancel_left hr.symm
  have hfin := hr
  rw [hnew] at hfin
  have hs2 : (performMeetingEndLogout [{ id := 1, name := "A" }] demoRecords
      (fun _ => true) 700 2).2.1 = 1 := by
    rw [hs]
    decide
  have herr2 : (performMeetingEndLogout [{ id := 1, name := "A" }] demoRecords
      (fun _ => true) 700 2).2.2 = 0 := by
    rw [herr]
    decide
  exact Prod.ext hfin (Prod.ext hs2 herr2)

/-- `Database.updateMeetingSchedule` (src/database.js:447-452): INSERT OR
REPLACE keyed by UNIQUE(day_of_week, session_number) — any row with the same
key is replaced, the inserted row is always written with is_active = true,
and a missing or empty session name defaults to the session number label. -/
def updateMeetingSchedule (table : List MeetingSchedule)
    (dayOfWeek sessionNumber startTime endTime : Nat)
    (sessionName : Option String) : List MeetingSchedule :=
  (table.filter fun s =>
    !(s.day_of_week == dayOfWeek && s.session_number == sessionNumber)) ++
    [{ day_of_week := dayOfWeek, session_number := sessionNumber,
       start_time := startTime, end_time := endTime,
       session_name :=
         match sessionName with
         | some n =>
           if n = "" then "Session " ++ toString sessionNumber else n
         | none => "Session " ++ toString sessionNumber,
       is_active := true }]

/-- `Database.deleteMeetingSchedule` (src/database.js:454-457): soft delete —
set is_active = false on the rows with the given key. -/
def deleteMeetingSchedule (table : List MeetingSchedule)
    (dayOfWeek sessionNumber : Nat) : List MeetingSchedule :=
  table.map fun s =>
    if s.day_of_week == dayOfWeek && s.session_number == sessionNumber then
      { s with is_active := false }
    else s

/-- One element of the JSON array accepted by `PUT /api/meeting-schedules`. -/
structure ScheduleInput where
  dayOfWeek : Nat
  sessionNumber : Nat
  startTime : Nat
  endTime : Nat
  sessionName : Option String
deriving Repr, DecidableEq

/-- `PUT /api/meeting-schedules` (src/server.js:656-725): read the active
schedules, soft-delete every active key absent from the new list, upsert
every listed schedule, and on success rearm the auto-logout scheduler from
the resulting active rows.  The source fires the deletes and upserts as
concurrent callbacks, but they touch disjoint keys, so they are modelled
sequentially: deletes first, then upserts in list order. -/
def replaceSchedules (table : List MeetingSchedule)
    (inputs : List ScheduleInput) : List MeetingSchedule × List Trigger :=
  let current := getMeetingSchedules table
  let newKeys := inputs.map fun i => (i.dayOfWeek, i.sessionNumber)
  let toDelete := current.filter fun c =>
    !(newKeys.contains (c.day_of_week, c.session_number))
  let afterDelete := toDelete.foldl
    (fun t c => deleteMeetingSchedule t c.day_of_week c.session_number) table
  let afterUpsert := inputs.foldl
    (fun t i => updateMeetingSchedule t i.dayOfWeek i.sessionNumber
      i.startTime i.endTime i.sessionName) afterDelete
  (afterUpsert, (getMeetingSchedules afterUpsert).map mkTrigger)

/-- A (day_of_week, session_number) key is present and active in a schedule
table, and no row with that key is inactive. -/
def keyActive (d sn : Nat) (t : List MeetingSchedule) : Prop :=
  (∃ s ∈ t, s.day_of_week = d ∧ s.session_number = sn ∧
    s.is_active = true) ∧
  ∀ s ∈ t, s.day_of_week = d → s.session_number = sn → s.is_active = true

theorem keyActive_updateMeetingSchedule_self (t : List MeetingSchedule)
    (d sn st et : Nat) (name : Option String) :
    keyActive d sn (updateMeetingSchedule t d sn st et name) := by
  constructor
  · exact ⟨_, List.mem_append_right _ (List.mem_singleton_self _),
      rfl, rfl, rfl⟩
  · intro s hs hd hsn
    rcases List.mem_append.mp hs with hf | hl
    · exfalso
      rw [List.mem_filter] at hf
      have hcond := hf.2
      simp [hd, hsn] at hcond
    · rw [List.mem_singleton] at hl
      rw [hl]

theorem keyActive_updateMeetingSchedule (t : List MeetingSchedule)
    (d sn d2 sn2 st et : Nat) (name : Option String)
    (h : keyActive d sn t) :
    keyActive d sn (updateMeetingSchedule t d2 sn2 st et name) := by
  by_cases hk : d2 = d ∧ sn2 = sn
  · rw [hk.1, hk.2]
    exact keyActive_updateMeetingSchedule_self t d sn st et name
  · rcases h with ⟨⟨s0, hs0, hd0, hsn0, hact0⟩, hall⟩
    constructor
    · refine ⟨s0, List.mem_append_left _ ?_, hd0, hsn0, hact0⟩
      rw [List.mem_filter]
      refine ⟨hs0, ?_⟩
      cases hbeq : (s0.day_of_week == d2 && s0.session_number == sn2) with
      | false => rfl
      | true =>
        exfalso
        simp only [Bool.and_eq_true, beq_iff_eq] at hbeq
        have h1 := hbeq.1
        have h2 := hbeq.2
        exact hk ⟨by omega, by omega⟩
    · intro s hs hd hsn
      rcases List.mem_append.mp hs with hf | hl
      · exact hall s (List.mem_filter.mp hf).1 hd hsn
      · rw [List.mem_singleton] at hl
        rw [hl]

theorem keyActive_foldl_upserts (d sn : Nat) (inputs : List ScheduleInput)
    (t : List MeetingSchedule) (h : keyActive d sn t) :
    keyActive d sn (inputs.foldl
      (fun t2 i => updateMeetingSchedule t2 i.dayOfWeek i.sessionNumber
        i.startTime i.endTime i.sessionName) t) := by
  induction inputs generalizing t with
  | nil => exact h
  | cons i rest ih =>
    rw [List.foldl_cons]
    exact ih _ (keyActive_updateMeetingSchedule t d sn i.dayOfWeek
      i.sessionNumber i.startTime i.endTime i.sessionName h)

theorem keyActive_foldl_of_mem (i : ScheduleInput)
    (inputs : List ScheduleInput) (hi : i ∈ inputs)
    (t : List MeetingSchedule) :
    keyActive i.dayOfWeek i.sessionNumber
      (inputs.foldl (fun t2 j => updateMeetingSchedule t2 j.dayOfWeek
        j.sessionNumber j.startTime j.endTime j.sessionName) t) := by
  induction inputs generalizing t with
  | nil => cases hi
  | cons j rest ih =>
    rcases List.mem_cons.mp hi with hij | hmem
    · rw [List.foldl_cons]
      apply keyActive_foldl_upserts
      rw [hij]
      exact keyActive_updateMeetingSchedule_self t j.dayOfWeek j.sessionNumber
        j.startTime j.endTime j.sessionName
    · rw [List.foldl_cons]
      exact ih hmem _

/-- C10: every (day_of_week, session_number) key listed in a replaceSchedules
call is stored active afterwards — the per-session upsert unconditionally
writes is_active = true, so a previously soft-deleted key that appears in the
list is silently reactivated and its auto-logout trigger is re-armed. -/
theorem replaceSchedules_reactivates (table : List MeetingSchedule)
    (inputs : List ScheduleInput) (i : ScheduleInput) (hi : i ∈ inputs) :
    (∃ s ∈ (replaceSchedules table inputs).1,
      s.day_of_week = i.dayOfWeek ∧ s.session_number = i.sessionNumber ∧
        s.is_active = true) ∧
    (∀ s ∈ (replaceSchedules table inputs).1,
      s.day_of_week = i.dayOfWeek → s.session_number = i.sessionNumber →
        s.is_active = true) ∧
    ∃ tr ∈ (replaceSchedules table inputs).2,
      tr.day_of_week = i.dayOfWeek ∧ tr.session_number = i.sessionNumber := by
  have hkey : keyActive i.dayOfWeek i.sessionNumber
      (replaceSchedules table inputs).1 :=
    keyActive_foldl_of_mem i inputs hi _
  rcases hkey.1 with ⟨s, hs, hd, hsn, hact⟩
  have hsg : s ∈ getMeetingSchedules (replaceSchedules table inputs).1 := by
    rw [getMeetingSchedules, List.mem_filter]
    exact ⟨hs, hact⟩
  have htr : (replaceSchedules table inputs).2 =
      (getMeetingSchedules (replaceSchedules table inputs).1).map mkTrigger :=
    rfl
  refine ⟨⟨s, hs, hd, hsn, hact⟩, hkey.2, mkTrigger s, ?_, hd, hsn⟩
  rw [htr]
  exact List.mem_map_of_mem mkTrigger hsg

/-- Witness for replaceSchedules_reactivates: a soft-deleted Monday session 1
listed again in the bulk replace ends up active. -/
theorem replaceSchedules_reactivates_witness :
    ∃ s ∈ (replaceSchedules
      [{ day_of_week := 1, session_number := 1, start_time := 480,
         end_time := 720, session_name := "Session 1", is_active := false }]
      [{ dayOfWeek := 1, sessionNumber := 1, startTime := 540, endTime := 780,
         sessionName := none }]).1,
      s.day_of_week = 1 ∧ s.session_number = 1 ∧ s.is_active = true := by
  exact (replaceSchedules_reactivates
    [{ day_of_week := 1, session_number := 1, start_time := 480,
       end_time := 720, session_name := "Session 1", is_active := false }]
    [{ dayOfWeek := 1, sessionNumber := 1, startTime := 540, endTime := 780,
       sessionName := none }]
    { dayOfWeek := 1, sessionNumber := 1, startTime := 540, endTime := 780,
      sessionName := none }
    (List.mem_singleton_self _)).1

/-- Witness for isWithinMeetingSchedule_spec: the Monday session is returned
at both of its inclusive boundaries. -/
theorem isWithinMeetingSchedule_spec_witness :
    (isWithinMeetingSchedule demoTable 1 480).isSome = true ∧
    (isWithinMeetingSchedule demoTable 1 720).isSome = true := by
  exact (isWithinMeetingSchedule_spec demoTable 1 600).2.1
    { day_of_week := 1, session_number := 1, start_time := 480,
      end_time := 720, session_name := "Session 1", is_active := true }
    (by decide) rfl rfl (by decide)
